import Mathlib

attribute [local semireducible] Rat.mul Rat.add Rat.sub Rat.inv Rat.ofScientific

set_option maxRecDepth 10000

/-!
Shallow embedding of the HanabiSync cue-generation core (`src/hanabi.py`).

Conventions of the embedding:
* Python floats are modelled as exact rationals (`ℚ`).  Timestamps, feature
  values, thresholds and cooldowns are all `ℚ`.
* Python's `-inf` sentinels (`time_of_last_generated_cue_overall`,
  `last_cue_times_by_type`, `last_particle_cue_time`) are modelled as
  `Option ℚ` with `none` standing for `-inf`; the comparisons that the code
  performs against `-inf` are spelled out case by case, matching the IEEE
  result of each comparison.
* `quiet_duration_for_boost` can be `float('inf')` in principle; it is
  modelled as `Option ℚ` with `none` standing for `+inf`.
* `uuid.uuid4()` (the only nondeterminism in the core) is modelled by an id
  oracle `ids : ℕ → String`; the k-th cue appended to `potential_cues`
  receives id `ids k`, mirroring the fresh-UUID-per-append behaviour.
* Python's stable `list.sort(key=...)` is modelled by a stable insertion
  sort (`stableSort`): a stable sort is uniquely determined by its key
  order, so this is behaviourally the same function.
* `numpy` profile statistics are reproduced directly: `np.percentile` with
  the default linear interpolation, `np.min`/`np.max`/`np.mean`.  The `std`
  entry of the profile dictionary is omitted from the model because it is
  an irrational square root and no code path ever reads the `'std'` key
  (threshold keys are always of the form `'pNN'`, with fallbacks `'p25'`,
  `'p10'`, `'p50'` and `'median'`).
* `librosa.time_to_frames(t, sr, hop)` computes
  `(t * sr).astype(int) // hop`: the sample count is truncated toward zero
  and then floor-divided by the hop length; `time_to_frames` below embeds
  exactly that.
-/

/-- One potential/final cue record, as built by `_add_potential_cue`:
`{"id": ..., "timestamp": ..., "firework": ..., "source": ...}`. -/
structure Cue where
  id : String
  timestamp : ℚ
  firework : String
  source : String
deriving DecidableEq

/-- One merged timeline event, as built in `generate_cues`:
`{'time': ..., 'type': 'onset' | 'beat'}`. -/
structure Event where
  time : ℚ
  kind : String
deriving DecidableEq

/-- The `FIREWORK_TYPES` dict of `hanabi.py`. -/
def FIREWORK_TYPES (k : String) : String :=
  if k = "mid_energy" then "mid_burst"
  else if k = "high_freq" then "high_sparkle"
  else if k = "strong_kick" then "kick_boom"
  else if k = "deep_bass" then "bass_pulse"
  else if k = "sharp_accent" then "comet_tail"
  else ""

/-- `HOP_LENGTH_FEATURES` of `hanabi.py`. -/
def HOP_LENGTH_FEATURES : ℕ := 512

/-- `PARTICLE_FIREWORK_TYPES` of `hanabi.py`: the four categories subject to
the cross-category particle limiter. -/
def PARTICLE_FIREWORK_TYPES : List String :=
  [FIREWORK_TYPES "mid_energy", FIREWORK_TYPES "high_freq",
   FIREWORK_TYPES "strong_kick", FIREWORK_TYPES "sharp_accent"]

/-- The six percentile-key names of a `dynamic_threshold_keys` mapping. -/
structure ThresholdKeys where
  key_bass_sc : String
  key_onset_rms_general : String
  key_rms_beat : String
  key_sc_beat_split : String
  key_flux_sharp : String
  key_rms_sharp : String
deriving DecidableEq

/-- One entry of the `PROFILES` dict.  The nested
`cue_generation_logic_tweaks` dict holds the single flag
`allow_kick_with_others_on_onset`, flattened here. -/
structure ProfileSettings where
  dynamic_threshold_keys : ThresholdKeys
  dynamic_threshold_keys_boost : ThresholdKeys
  min_time_between_same_type_cues : ℚ
  min_time_between_any_particle_cues : ℚ
  quiet_duration_for_boost : Option ℚ
  allow_kick_with_others_on_onset : Bool
deriving DecidableEq

/-- `PROFILES["balanced"]`. -/
def balancedProfile : ProfileSettings where
  dynamic_threshold_keys :=
    ⟨"p45", "p55", "p65", "p70", "p85", "p80"⟩
  dynamic_threshold_keys_boost :=
    ⟨"p45", "p40", "p50", "p60", "p75", "p70"⟩
  min_time_between_same_type_cues := 15/100
  min_time_between_any_particle_cues := 8/100
  quiet_duration_for_boost := some 5
  allow_kick_with_others_on_onset := false

/-- `PROFILES["noisy"]`. -/
def noisyProfile : ProfileSettings where
  dynamic_threshold_keys :=
    ⟨"p35", "p40", "p50", "p60", "p70", "p65"⟩
  dynamic_threshold_keys_boost :=
    ⟨"p30", "p30", "p40", "p50", "p60", "p55"⟩
  min_time_between_same_type_cues := 8/100
  min_time_between_any_particle_cues := 4/100
  quiet_duration_for_boost := some 3
  allow_kick_with_others_on_onset := true

/-- `PROFILES["quiet"]`. -/
def quietProfile : ProfileSettings where
  dynamic_threshold_keys :=
    ⟨"p55", "p70", "p75", "p80", "p90", "p85"⟩
  dynamic_threshold_keys_boost :=
    ⟨"p50", "p60", "p65", "p70", "p80", "p75"⟩
  min_time_between_same_type_cues := 30/100
  min_time_between_any_particle_cues := 15/100
  quiet_duration_for_boost := some 8
  allow_kick_with_others_on_onset := false

/-- Stable insertion of `x` into `l`: `x` is placed before the first element
that is not strictly below it.  Together with `stableSort` this is the
unique stable sort for the preorder described by `le`, i.e. the behaviour
of Python's `list.sort` with the corresponding key. -/
def stableInsert (le : α → α → Bool) (x : α) : List α → List α
  | [] => [x]
  | y :: ys => if le y x ∧ ¬ le x y then y :: stableInsert le x ys else x :: y :: ys

/-- Stable sort (model of Python's stable `list.sort`). -/
def stableSort (le : α → α → Bool) : List α → List α
  | [] => []
  | x :: xs => stableInsert le x (stableSort le xs)

/-- The fixed list `percentiles_to_define` of `calculate_feature_profile`
(already sorted and duplicate-free in the source). -/
def percentiles_to_define : List ℕ :=
  [10, 25, 30, 35, 40, 45, 50, 55, 60, 65, 70, 75, 80, 85, 90, 95]

/-- `np.percentile(values, p)` with the default linear interpolation,
applied to an already ascending-sorted nonempty list `s`:
`rank = p/100 * (n-1)`, interpolating between the two neighbouring order
statistics. -/
def percentileOfSorted (s : List ℚ) (p : ℕ) : ℚ :=
  let n := s.length
  let rank : ℚ := (p : ℚ) * ((n : ℚ) - 1) / 100
  let i : ℕ := (Rat.floor rank).toNat
  let lo := s.getD i 0
  let hi := s.getD (i + 1) lo
  lo + (rank - (Rat.floor rank : ℚ)) * (hi - lo)

/-- Minimum of a nonempty list (`np.min`); 0 for `[]` (unreachable). -/
def listMin : List ℚ → ℚ
  | [] => 0
  | x :: xs => xs.foldl min x

/-- Maximum of a nonempty list (`np.max`); 0 for `[]` (unreachable). -/
def listMax : List ℚ → ℚ
  | [] => 0
  | x :: xs => xs.foldl max x

/-- Sum of a list of rationals. -/
def listSum (l : List ℚ) : ℚ := l.foldl (· + ·) 0

/-- The all-zero default profile dictionary returned by
`get_default_profile_dict` for empty input (`median = p50 = 0`). -/
def defaultProfile : List (String × ℚ) :=
  [("min", 0), ("max", 0), ("mean", 0), ("count", 0)]
    ++ percentiles_to_define.map (fun p => ("p" ++ toString p, 0))
    ++ [("median", 0)]

/-- `calculate_feature_profile` of `hanabi.py`, producing the profile
dictionary as an association list.  The `'std'` entry is omitted (see the
file header); `'median'` is `profile.get('p50', ...)` and `'p50'` is always
present on this path, so it is the 50th percentile. -/
def calculate_feature_profile (arr : List ℚ) (filter_zeros : Bool) : List (String × ℚ) :=
  if arr = [] then defaultProfile
  else
    let values := if filter_zeros then arr.filter (fun x => decide (x > 1/1000000)) else arr
    let values := if values = [] ∧ filter_zeros then arr else values
    if values = [] then defaultProfile
    else
      let s := stableSort (fun a b => decide (a ≤ b)) values
      [("min", listMin values), ("max", listMax values),
       ("mean", listSum values / (values.length : ℚ)),
       ("count", (values.length : ℚ))]
        ++ percentiles_to_define.map (fun p => ("p" ++ toString p, percentileOfSorted s p))
        ++ [("median", percentileOfSorted s 50)]

/-- `get_profile_value` (the local helper inside `DynamicThresholds.__init__`).
Note the source's fallback for `"sc_bass"`: the whole lower-fallback branch
is guarded by `'p25' in profile`, so `default_key` is `'p25'` exactly when
`'p25'` is present and `'p50'` otherwise — the `'p10'` alternative is
unreachable. -/
def get_profile_value (profile : List (String × ℚ)) (key : String)
    (feature_type_for_fallback : String) : ℚ :=
  let default_key :=
    if feature_type_for_fallback = "sc_bass" ∧ (List.lookup "p25" profile).isSome then
      if (List.lookup "p25" profile).isSome then "p25"
      else if (List.lookup "p10" profile).isSome then "p10"
      else "p50"
    else "p50"
  match List.lookup key profile with
  | some v => v
  | none =>
    match List.lookup default_key profile with
    | some v => v
    | none => (List.lookup "median" profile).getD 0

/-- The six resolved thresholds of a `DynamicThresholds` instance. -/
structure DynamicThresholds where
  rms_trigger_threshold_beat : ℚ
  sc_beat_split_thresh : ℚ
  bass_sc_thresh : ℚ
  onset_rms_trigger_threshold : ℚ
  flux_trigger_threshold : ℚ
  sharp_onset_rms_thresh : ℚ
deriving DecidableEq

/-- `DynamicThresholds.__init__`: resolve the six thresholds from the three
profiles and one `dynamic_threshold_keys` mapping. -/
def DynamicThresholds.ofProfiles (rms_profile sc_profile flux_profile : List (String × ℚ))
    (keys : ThresholdKeys) : DynamicThresholds where
  rms_trigger_threshold_beat := get_profile_value rms_profile keys.key_rms_beat "RMS"
  sc_beat_split_thresh := get_profile_value sc_profile keys.key_sc_beat_split "SC"
  bass_sc_thresh := get_profile_value sc_profile keys.key_bass_sc "sc_bass"
  onset_rms_trigger_threshold := get_profile_value rms_profile keys.key_onset_rms_general "RMS"
  flux_trigger_threshold := get_profile_value flux_profile keys.key_flux_sharp "Flux"
  sharp_onset_rms_thresh := get_profile_value rms_profile keys.key_rms_sharp "RMS"

/-- Python's `round(x, 3)` modelled on exact rationals: scale by 1000 and
round to the nearest integer, ties to even (banker's rounding).
(`Rat.floor` is used instead of `⌊⌋` so that the definition evaluates by
kernel reduction; the two agree, see `Rat.floor_def`.) -/
def pyRound3 (x : ℚ) : ℚ :=
  let y := x * 1000
  let f : ℤ := Rat.floor y
  let r := y - (f : ℚ)
  let n : ℤ :=
    if r < 1/2 then f
    else if r > 1/2 then f + 1
    else if f % 2 = 0 then f else f + 1
  (n : ℚ) / 1000

/-- `np.array(x).astype(int)`: truncation toward zero. -/
def pyTrunc (x : ℚ) : ℤ := if 0 ≤ x then Rat.floor x else Rat.ceil x

/-- `librosa.time_to_frames(t, sr=sr, hop_length=hop)`:
`samples_to_frames(time_to_samples(t, sr), hop)`, i.e. the sample count
`t * sr` truncated to an integer, then floor-divided by the hop length. -/
def time_to_frames (t : ℚ) (sr hop : ℕ) : ℤ :=
  Int.fdiv (pyTrunc (t * (sr : ℚ))) (hop : ℤ)

/-- The bounds test of `generate_cues`:
`0 <= frame_idx < len(rms) and 0 <= frame_idx < len(sc) and
 (event_type != 'onset' or 0 <= frame_idx < len(flux))`. -/
def frameOK (fi : ℤ) (nr ns nf : ℕ) (kind : String) : Bool :=
  decide (0 ≤ fi ∧ fi < (nr : ℤ)) && decide (0 ≤ fi ∧ fi < (ns : ℤ)) &&
    (decide (kind ≠ "onset") || decide (0 ≤ fi ∧ fi < (nf : ℤ)))

/-- Indexing a feature array at a (bounds-checked) frame index. -/
def getQ (l : List ℚ) (i : ℤ) : ℚ := l.getD i.toNat 0

/-- The `(firework, source)` pairs generated for one onset event, in
emission order, mirroring the three conditionals of the onset branch.  The
kick guard inspects only the types already generated for this event. -/
def onsetCandidates (P : ProfileSettings) (th : DynamicThresholds)
    (r s f : ℚ) : List (String × String) :=
  let g : List (String × String) :=
    if r > th.onset_rms_trigger_threshold ∧ s < th.bass_sc_thresh then
      [(FIREWORK_TYPES "deep_bass", "onset_bass")] else []
  let g := g ++
    (if r > th.sharp_onset_rms_thresh ∧ f > th.flux_trigger_threshold then
      [(FIREWORK_TYPES "sharp_accent", "onset_flux")] else [])
  let can_trigger_kick := P.allow_kick_with_others_on_onset = true ∨
    ¬ (FIREWORK_TYPES "deep_bass" ∈ g.map Prod.fst ∨
       FIREWORK_TYPES "sharp_accent" ∈ g.map Prod.fst)
  g ++
    (if r > th.onset_rms_trigger_threshold ∧ can_trigger_kick then
      [(FIREWORK_TYPES "strong_kick", "onset_kick")] else [])

/-- The `(firework, source)` pairs generated for one beat event (zero or
one). -/
def beatCandidates (th : DynamicThresholds) (r s : ℚ) : List (String × String) :=
  if r > th.rms_trigger_threshold_beat then
    [((if s > th.sc_beat_split_thresh then FIREWORK_TYPES "high_freq"
       else FIREWORK_TYPES "mid_energy"), "beat")]
  else []

/-- The candidates generated for one event, by event kind. -/
def eventCandidates (P : ProfileSettings) (th : DynamicThresholds)
    (kind : String) (r s f : ℚ) : List (String × String) :=
  if kind = "onset" then onsetCandidates P th r s f
  else if kind = "beat" then beatCandidates th r s
  else []

/-- Materialize candidate `(firework, source)` pairs into `Cue` records with
consecutive ids from the oracle (`_add_potential_cue` with
`round(timestamp, 3)` already applied to `t`). -/
def attachIds (ids : ℕ → String) (nid : ℕ) (t : ℚ) :
    List (String × String) → List Cue
  | [] => []
  | (fw, src) :: rest =>
    { id := ids nid, timestamp := t, firework := fw, source := src }
      :: attachIds ids (nid + 1) t rest

/-- The mutable state of the `generate_cues` scan loop. -/
structure GenState where
  potential : List Cue
  nextId : ℕ
  timeOfLast : Option ℚ
  boosted : Bool
  thresholds : DynamicThresholds
deriving DecidableEq

/-- The quiet-gap test
`event_time - time_of_last_generated_cue_overall > quiet_duration_for_boost`
combined with the inner `quiet_duration_for_boost != float('inf')` check:
with an infinite quiet gap the comparison is false for every event (also
for the `-inf` sentinel: `inf > inf` is false), so the two tests fuse into
one boolean. -/
def gapExceeded (last : Option ℚ) (t : ℚ) (quiet : Option ℚ) : Bool :=
  match last, quiet with
  | _, none => false
  | none, some _ => true
  | some l, some q => decide (t - l > q)

/-- The boost-activation prologue of the scan loop: on a Normal state whose
quiet-gap test fires (with a finite configured gap), switch to Boosted and
recompute the active thresholds from the boost key map. -/
def boostCheck (P : ProfileSettings) (rp scp fp : List (String × ℚ))
    (st : GenState) (e : Event) : GenState :=
  if st.boosted = false ∧ gapExceeded st.timeOfLast e.time P.quiet_duration_for_boost = true then
    { st with
      boosted := true,
      thresholds := DynamicThresholds.ofProfiles rp scp fp P.dynamic_threshold_keys_boost }
  else st

/-- The classification body of the scan loop, after the boost prologue:
bounds-check the frame index, emit this event's candidates, and on emission
update `time_of_last_generated_cue_overall` and deactivate the boost. -/
def classifyCore (P : ProfileSettings) (rp scp fp : List (String × ℚ))
    (rms sc flux : List ℚ) (sr hop : ℕ) (ids : ℕ → String)
    (st : GenState) (e : Event) : GenState :=
  let fi := time_to_frames e.time sr hop
  if frameOK fi rms.length sc.length flux.length e.kind = true then
    let r := getQ rms fi
    let s := getQ sc fi
    let f := getQ flux fi
    let cands := eventCandidates P st.thresholds e.kind r s f
    if cands = [] then st
    else
      let st1 : GenState :=
        { st with
          potential := st.potential ++ attachIds ids st.nextId (pyRound3 e.time) cands,
          nextId := st.nextId + cands.length,
          timeOfLast := some (pyRound3 e.time) }
      if st1.boosted = true then
        { st1 with
          boosted := false,
          thresholds := DynamicThresholds.ofProfiles rp scp fp P.dynamic_threshold_keys }
      else st1
  else st

/-- One iteration of the scan loop of `generate_cues`. -/
def stepEvent (P : ProfileSettings) (rp scp fp : List (String × ℚ))
    (rms sc flux : List ℚ) (sr hop : ℕ) (ids : ℕ → String)
    (st : GenState) (e : Event) : GenState :=
  classifyCore P rp scp fp rms sc flux sr hop ids (boostCheck P rp scp fp st e) e

/-- The merged, ascending, stably-ordered event sequence (`combined_events`):
onsets are listed before beats, then a stable sort by time. -/
def combinedEvents (beat_times onset_times : List ℚ) : List Event :=
  stableSort (fun a b => decide (a.time ≤ b.time))
    (onset_times.map (fun t => ⟨t, "onset"⟩) ++ beat_times.map (fun t => ⟨t, "beat"⟩))

/-- The scan-loop state at entry: no cues, `-inf` last-cue time, Normal
regime, thresholds resolved from the normal key map. -/
def initState (rp scp fp : List (String × ℚ)) (P : ProfileSettings) : GenState :=
  ⟨[], 0, none, false, DynamicThresholds.ofProfiles rp scp fp P.dynamic_threshold_keys⟩

/-- `potential_cues` after the scan loop. -/
def potentialStage (sr hop : ℕ) (beat_times onset_times rms sc flux : List ℚ)
    (P : ProfileSettings) (ids : ℕ → String) : List Cue :=
  let rp := calculate_feature_profile rms true
  let scp := calculate_feature_profile sc true
  let fp := calculate_feature_profile flux false
  ((combinedEvents beat_times onset_times).foldl
    (stepEvent P rp scp fp rms sc flux sr hop ids) (initState rp scp fp P)).potential

/-- Lexicographic comparison of strings by code point, the order Python uses
when comparing the `firework` components of the sort-key tuples. -/
def strLeAux : List Char → List Char → Bool
  | [], _ => true
  | _ :: _, [] => false
  | a :: as, b :: bs =>
    if a.toNat < b.toNat then true
    else if b.toNat < a.toNat then false
    else strLeAux as bs

/-- `a <= b` on Python strings (code-point lexicographic). -/
def pyStrLe (a b : String) : Bool := strLeAux a.data b.data

/-- The sort key of `potential_cues.sort(key=lambda x: (x["timestamp"], x["firework"]))`:
lexicographic on (timestamp, firework). -/
def cueLe (a b : Cue) : Bool :=
  decide (a.timestamp < b.timestamp) ||
    (decide (a.timestamp = b.timestamp) && pyStrLe a.firework b.firework)

/-- `potential_cues` after sorting. -/
def sortedStage (sr hop : ℕ) (beat_times onset_times rms sc flux : List ℚ)
    (P : ProfileSettings) (ids : ℕ → String) : List Cue :=
  stableSort cueLe (potentialStage sr hop beat_times onset_times rms sc flux P ids)

/-- The deduplication pass: each element is compared with its original
predecessor and dropped when both timestamp and firework coincide. -/
def dedupGo (prev : Cue) : List Cue → List Cue
  | [] => []
  | c :: rest =>
    (if c.timestamp = prev.timestamp ∧ c.firework = prev.firework then [] else [c])
      ++ dedupGo c rest

/-- `deduplicated_cues` from the sorted list. -/
def dedup : List Cue → List Cue
  | [] => []
  | c :: rest => c :: dedupGo c rest

/-- `deduplicated_cues` stage of the pipeline. -/
def dedupStage (sr hop : ℕ) (beat_times onset_times rms sc flux : List ℚ)
    (P : ProfileSettings) (ids : ℕ → String) : List Cue :=
  dedup (sortedStage sr hop beat_times onset_times rms sc flux P ids)

/-- `ts - last < gap` against an `Option ℚ` last-seen time (`none` = `-inf`,
for which the IEEE comparison `inf < gap` is false). -/
def ltGapB (last : Option ℚ) (ts gap : ℚ) : Bool :=
  match last with
  | none => false
  | some l => decide (ts - l < gap)

/-- The mutable state of the final rate-limiting loop. -/
structure FinState where
  lastByType : String → Option ℚ
  lastParticle : Option ℚ
  final : List Cue

/-- One iteration of the final rate-limiting loop: same-category cooldown,
then (for particle-class categories) the cross-category particle cooldown,
then keep the cue and update the last-seen tables. -/
def finalizeStep (P : ProfileSettings) (st : FinState) (cue : Cue) : FinState :=
  if ltGapB (st.lastByType cue.firework) cue.timestamp P.min_time_between_same_type_cues then st
  else if cue.firework ∈ PARTICLE_FIREWORK_TYPES ∧
      ltGapB st.lastParticle cue.timestamp P.min_time_between_any_particle_cues = true then st
  else
    let st1 : FinState :=
      if cue.firework ∈ PARTICLE_FIREWORK_TYPES then
        { st with lastParticle := some cue.timestamp }
      else st
    { st1 with
      final := st1.final ++ [cue],
      lastByType := fun s => if s = cue.firework then some cue.timestamp else st1.lastByType s }

/-- The initial finalizer state: every per-type last-seen time and the
particle last-seen time at `-inf`, no kept cues. -/
def finalizeInit : FinState := ⟨fun _ => none, none, []⟩

/-- `final_cues` from `deduplicated_cues`. -/
def finalize (P : ProfileSettings) (l : List Cue) : List Cue :=
  (l.foldl (finalizeStep P) finalizeInit).final

/-- `generate_cues` of `hanabi.py` (the whole pipeline), parametrized by the
id oracle standing for `uuid.uuid4()`. -/
def generate_cues (sr hop : ℕ) (beat_times onset_times rms sc flux : List ℚ)
    (P : ProfileSettings) (ids : ℕ → String) : List Cue :=
  if rms = [] ∨ sc = [] ∨ flux = [] then []
  else finalize P (dedupStage sr hop beat_times onset_times rms sc flux P ids)

/-- Erase the id field of a cue (the only field fed by the id oracle). -/
def eraseId (c : Cue) : Cue := { c with id := "" }

/-- Two scan-loop states that agree except possibly on the ids stored in
their candidate lists. -/
def GenRel (s s2 : GenState) : Prop :=
  s.potential.map eraseId = s2.potential.map eraseId ∧
  s.nextId = s2.nextId ∧ s.timeOfLast = s2.timeOfLast ∧
  s.boosted = s2.boosted ∧ s.thresholds = s2.thresholds

/-- Modelled from the spec: the particle class as the claim describes it —
exactly the three onset-driven categories deep-bass, sharp-accent and kick,
with the two beat-driven categories ("mid" and "bright") ambient.  Stated
for comparison with the source's `PARTICLE_FIREWORK_TYPES`. -/
def claimedParticleCategories : List String :=
  ["bass_pulse", "comet_tail", "kick_boom"]

/-- Modelled from the spec: the fallback chain the claim ascribes to the
bass-centroid threshold — requested key, else 25th percentile, else 10th,
else 50th, else the median field, else zero.  Stated for comparison with
the source's `get_profile_value` on the `"sc_bass"` feature type. -/
def get_profile_value_claimed (profile : List (String × ℚ)) (key : String) : ℚ :=
  match List.lookup key profile with
  | some v => v
  | none =>
    match List.lookup "p25" profile with
    | some v => v
    | none =>
      match List.lookup "p10" profile with
      | some v => v
      | none =>
        match List.lookup "p50" profile with
        | some v => v
        | none => (List.lookup "median" profile).getD 0

/-- Invariant carried through the final rate-limiting fold, relative to the
still-unprocessed suffix `l`: kept same-category cues respect the gap `g`,
the per-type table dominates the kept timestamps, an empty table entry
means no kept cue of that type, and everything kept or recorded precedes
the unprocessed suffix. -/
def FinInv (g : ℚ) (st : FinState) (l : List Cue) : Prop :=
  st.final.Pairwise (fun a b => a.firework = b.firework → g ≤ b.timestamp - a.timestamp) ∧
  (∀ a ∈ st.final, ∀ t, st.lastByType a.firework = some t → a.timestamp ≤ t) ∧
  (∀ fw, st.lastByType fw = none → ∀ a ∈ st.final, a.firework ≠ fw) ∧
  (∀ a ∈ st.final, ∀ x ∈ l, a.timestamp ≤ x.timestamp) ∧
  (∀ fw t, st.lastByType fw = some t → ∀ x ∈ l, t ≤ x.timestamp)

/-! ## Concrete inputs used by witnesses and counterexamples

A 21-sample feature triple designed so that every percentile rank requested
by the profiles lands on an exact order statistic: loudness spikes at
frames 0 and 1, brightness is constant, transient strength spikes at
frame 1.  With `sr = 51200` and `hop = 512`, an event at `t` seconds maps
to frame `100·t`. -/

/-- Example loudness envelope: `[2, 100, 1, 1, ..., 1]` (21 samples). -/
def exRms : List ℚ := [2, 100] ++ List.replicate 19 1

/-- Example brightness envelope: constant 5 (21 samples). -/
def exSc : List ℚ := List.replicate 21 5

/-- Example transient-strength envelope: `[0, 100, 0, ..., 0]` (21 samples). -/
def exFlux : List ℚ := [0, 100] ++ List.replicate 19 0

/-- A constant id oracle (the id value is irrelevant to control flow). -/
def exIds : ℕ → String := fun _ => ""

/-- An id oracle producing `"a"` everywhere. -/
def exIdsA : ℕ → String := fun _ => "a"

/-- An id oracle producing `"b"` everywhere. -/
def exIdsB : ℕ → String := fun _ => "b"

/-- Profile of the example loudness envelope. -/
def exRmsProfile : List (String × ℚ) := calculate_feature_profile exRms true

/-- Profile of the example brightness envelope. -/
def exScProfile : List (String × ℚ) := calculate_feature_profile exSc true

/-- Profile of the example transient-strength envelope. -/
def exFluxProfile : List (String × ℚ) := calculate_feature_profile exFlux false

/-- The scan-loop entry state for the example features under the balanced
profile. -/
def exInitState : GenState :=
  initState exRmsProfile exScProfile exFluxProfile balancedProfile

/-- The example entry state with the sensitivity boost active and the
boosted thresholds resolved. -/
def exBoostState : GenState :=
  { exInitState with
    boosted := true,
    thresholds := DynamicThresholds.ofProfiles exRmsProfile exScProfile exFluxProfile
      balancedProfile.dynamic_threshold_keys_boost }

/-! ## General lemmas about the sorting, deduplication and finalizing
stages -/

theorem mem_stableInsert (le : α → α → Bool) (x : α) (l : List α) (a : α) :
    a ∈ stableInsert le x l ↔ a = x ∨ a ∈ l := by
  induction l with
  | nil => simp [stableInsert]
  | cons y ys ih =>
    by_cases h : le y x = true ∧ ¬ le x y = true
    · simp only [stableInsert, if_pos h, List.mem_cons, ih]
      tauto
    · simp only [stableInsert, if_neg h, List.mem_cons]

theorem pairwise_stableInsert (le : α → α → Bool)
    (htot : ∀ a b, le a b = true ∨ le b a = true)
    (htrans : ∀ a b c, le a b = true → le b c = true → le a c = true)
    (x : α) (l : List α) (h : l.Pairwise (fun a b => le a b = true)) :
    (stableInsert le x l).Pairwise (fun a b => le a b = true) := by
  induction l with
  | nil => simp [stableInsert]
  | cons y ys ih =>
    rcases h with _ | ⟨hy, hys⟩
    by_cases hc : le y x = true ∧ ¬ le x y = true
    · rw [stableInsert, if_pos hc]
      refine List.Pairwise.cons ?_ (ih hys)
      intro b hb
      rcases (mem_stableInsert le x ys b).mp hb with rfl | hb
      · exact hc.1
      · exact hy b hb
    · rw [stableInsert, if_neg hc]
      have hxy : le x y = true := by
        rcases htot x y with h1 | h1
        · exact h1
        · by_contra h2
          exact hc ⟨h1, h2⟩
      refine List.Pairwise.cons ?_ (List.Pairwise.cons hy hys)
      intro b hb
      rcases List.mem_cons.mp hb with rfl | hb
      · exact hxy
      · exact htrans x y b hxy (hy b hb)

theorem pairwise_stableSort (le : α → α → Bool)
    (htot : ∀ a b, le a b = true ∨ le b a = true)
    (htrans : ∀ a b c, le a b = true → le b c = true → le a c = true)
    (l : List α) : (stableSort le l).Pairwise (fun a b => le a b = true) := by
  induction l with
  | nil => exact List.Pairwise.nil
  | cons x xs ih => exact pairwise_stableInsert le htot htrans x _ ih

theorem stableInsert_ne_nil (le : α → α → Bool) (x : α) (l : List α) :
    stableInsert le x l ≠ [] := by
  cases l with
  | nil => simp [stableInsert]
  | cons y ys =>
    rw [stableInsert]
    split <;> simp

theorem stableSort_ne_nil (le : α → α → Bool) (x : α) (xs : List α) :
    stableSort le (x :: xs) ≠ [] := by
  rw [stableSort]
  exact stableInsert_ne_nil le x _

theorem dedupGo_sublist (prev : Cue) (l : List Cue) : (dedupGo prev l).Sublist l := by
  induction l generalizing prev with
  | nil => simp [dedupGo]
  | cons c rest ih =>
    rw [dedupGo]
    split
    · simpa using List.Sublist.cons c (ih c)
    · simpa using List.Sublist.cons₂ c (ih c)

theorem dedup_sublist (l : List Cue) : (dedup l).Sublist l := by
  cases l with
  | nil => simp [dedup]
  | cons c rest =>
    rw [dedup]
    exact List.Sublist.cons₂ c (dedupGo_sublist c rest)

theorem finalizeStep_final (P : ProfileSettings) (st : FinState) (c : Cue) :
    (finalizeStep P st c).final = st.final ∨ (finalizeStep P st c).final = st.final ++ [c] := by
  rw [finalizeStep]
  split
  · exact Or.inl rfl
  · split
    · exact Or.inl rfl
    · split <;> exact Or.inr rfl

theorem foldl_finalizeStep_sublist (P : ProfileSettings) :
    ∀ (l : List Cue) (st : FinState),
      ∃ s, (l.foldl (finalizeStep P) st).final = st.final ++ s ∧ s.Sublist l := by
  intro l
  induction l with
  | nil => exact fun st => ⟨[], by simp, List.Sublist.refl []⟩
  | cons c rest ih =>
    intro st
    obtain ⟨s, hs, hsub⟩ := ih (finalizeStep P st c)
    rcases finalizeStep_final P st c with h | h
    · exact ⟨s, by rw [List.foldl_cons, hs, h], List.Sublist.cons c hsub⟩
    · refine ⟨c :: s, ?_, List.Sublist.cons₂ c hsub⟩
      rw [List.foldl_cons, hs, h, List.append_assoc]
      rfl

theorem finalize_sublist (P : ProfileSettings) (l : List Cue) :
    (finalize P l).Sublist l := by
  obtain ⟨s, hs, hsub⟩ := foldl_finalizeStep_sublist P l finalizeInit
  rw [finalize, hs]
  simpa [finalizeInit] using hsub

/-! ## The lexicographic candidate order -/

theorem strLeAux_total : ∀ a b : List Char, strLeAux a b = true ∨ strLeAux b a = true := by
  intro a
  induction a with
  | nil => intro b; exact Or.inl rfl
  | cons x xs ih =>
    intro b
    cases b with
    | nil => exact Or.inr rfl
    | cons y ys =>
      rcases Nat.lt_trichotomy x.toNat y.toNat with h | h | h
      · exact Or.inl (by simp [strLeAux, h])
      · have h1 : ¬ x.toNat < y.toNat := by omega
        have h2 : ¬ y.toNat < x.toNat := by omega
        simp only [strLeAux, if_neg h1, if_neg h2]
        exact ih ys
      · exact Or.inr (by simp [strLeAux, h])

theorem strLeAux_trans :
    ∀ a b c : List Char, strLeAux a b = true → strLeAux b c = true →
      strLeAux a c = true := by
  intro a
  induction a with
  | nil => intro b c _ _; rfl
  | cons x xs ih =>
    intro b c hab hbc
    cases b with
    | nil => exact absurd hab (by simp [strLeAux])
    | cons y ys =>
      cases c with
      | nil => exact absurd hbc (by simp [strLeAux])
      | cons z zs =>
        rcases Nat.lt_trichotomy x.toNat y.toNat with h1 | h1 | h1
        · rcases Nat.lt_trichotomy y.toNat z.toNat with h2 | h2 | h2
          · simp [strLeAux, show x.toNat < z.toNat by omega]
          · simp [strLeAux, show x.toNat < z.toNat by omega]
          · simp [strLeAux, show ¬ y.toNat < z.toNat by omega, h2] at hbc
        · rcases Nat.lt_trichotomy y.toNat z.toNat with h2 | h2 | h2
          · simp [strLeAux, show x.toNat < z.toNat by omega]
          · simp only [strLeAux, if_neg (show ¬ x.toNat < y.toNat by omega),
              if_neg (show ¬ y.toNat < x.toNat by omega)] at hab
            simp only [strLeAux, if_neg (show ¬ y.toNat < z.toNat by omega),
              if_neg (show ¬ z.toNat < y.toNat by omega)] at hbc
            simp only [strLeAux, if_neg (show ¬ x.toNat < z.toNat by omega),
              if_neg (show ¬ z.toNat < x.toNat by omega)]
            exact ih ys zs hab hbc
          · simp [strLeAux, show ¬ y.toNat < z.toNat by omega, h2] at hbc
        · simp [strLeAux, show ¬ x.toNat < y.toNat by omega, h1] at hab

theorem cueLe_total : ∀ a b : Cue, cueLe a b = true ∨ cueLe b a = true := by
  intro a b
  rw [cueLe, cueLe]
  rcases lt_trichotomy a.timestamp b.timestamp with h | h | h
  · rw [decide_eq_true h]
    exact Or.inl (by simp)
  · rcases strLeAux_total a.firework.data b.firework.data with hs | hs
    · refine Or.inl ?_
      rw [decide_eq_true h]
      simp [pyStrLe, hs]
    · refine Or.inr ?_
      rw [decide_eq_true h.symm]
      simp [pyStrLe, hs]
  · rw [decide_eq_true h]
    exact Or.inr (by simp)

theorem cueLe_trans :
    ∀ a b c : Cue, cueLe a b = true → cueLe b c = true → cueLe a c = true := by
  intro a b c hab hbc
  rw [cueLe] at hab hbc ⊢
  rcases Bool.or_eq_true_iff.mp hab with h1 | h1
  · rcases Bool.or_eq_true_iff.mp hbc with h2 | h2
    · have := lt_trans (of_decide_eq_true h1) (of_decide_eq_true h2)
      simp [this]
    · have h2' := of_decide_eq_true (Bool.and_eq_true_iff.mp h2).1
      have := lt_of_lt_of_eq (of_decide_eq_true h1) h2'
      simp [this]
  · rcases Bool.or_eq_true_iff.mp hbc with h2 | h2
    · have h1' := of_decide_eq_true (Bool.and_eq_true_iff.mp h1).1
      have := lt_of_eq_of_lt h1' (of_decide_eq_true h2)
      simp [this]
    · obtain ⟨h1e, h1s⟩ := Bool.and_eq_true_iff.mp h1
      obtain ⟨h2e, h2s⟩ := Bool.and_eq_true_iff.mp h2
      have he : a.timestamp = c.timestamp :=
        (of_decide_eq_true h1e).trans (of_decide_eq_true h2e)
      have hs : pyStrLe a.firework c.firework = true := by
        rw [pyStrLe] at h1s h2s ⊢
        exact strLeAux_trans _ _ _ h1s h2s
      rw [decide_eq_true he, hs]
      simp

theorem cueLe_timestamp {a b : Cue} (h : cueLe a b = true) :
    a.timestamp ≤ b.timestamp := by
  rw [cueLe] at h
  rcases Bool.or_eq_true_iff.mp h with h | h
  · exact le_of_lt (of_decide_eq_true h)
  · exact le_of_eq (of_decide_eq_true (Bool.and_eq_true_iff.mp h).1)

theorem sortedStage_pairwise (sr hop : ℕ) (beat_times onset_times rms sc flux : List ℚ)
    (P : ProfileSettings) (ids : ℕ → String) :
    (sortedStage sr hop beat_times onset_times rms sc flux P ids).Pairwise
      (fun a b => a.timestamp ≤ b.timestamp) := by
  refine List.Pairwise.imp (fun h => cueLe_timestamp h) ?_
  exact pairwise_stableSort cueLe cueLe_total cueLe_trans _

theorem dedupStage_pairwise (sr hop : ℕ) (beat_times onset_times rms sc flux : List ℚ)
    (P : ProfileSettings) (ids : ℕ → String) :
    (dedupStage sr hop beat_times onset_times rms sc flux P ids).Pairwise
      (fun a b => a.timestamp ≤ b.timestamp) := by
  exact List.Pairwise.sublist (dedup_sublist _)
    (sortedStage_pairwise sr hop beat_times onset_times rms sc flux P ids)

/-- The fields of the finalizer state after one step: either the cue was
dropped (state unchanged), or it was kept (appended, with the per-type
last-seen entry updated and the same-category test known to have passed). -/
theorem finalizeStep_fields (P : ProfileSettings) (st : FinState) (c : Cue) :
    ((finalizeStep P st c).final = st.final ∧
      (finalizeStep P st c).lastByType = st.lastByType) ∨
    ((finalizeStep P st c).final = st.final ++ [c] ∧
      (finalizeStep P st c).lastByType =
        (fun s => if s = c.firework then some c.timestamp else st.lastByType s) ∧
      ltGapB (st.lastByType c.firework) c.timestamp
        P.min_time_between_same_type_cues = false) := by
  rw [finalizeStep]
  split
  · exact Or.inl ⟨rfl, rfl⟩
  · next hkeep =>
    split
    · exact Or.inl ⟨rfl, rfl⟩
    · refine Or.inr ⟨?_, ?_, Bool.not_eq_true _ ▸ eq_false_of_ne_true hkeep⟩
      · by_cases hp : c.firework ∈ PARTICLE_FIREWORK_TYPES
        · simp only [if_pos hp]
        · simp only [if_neg hp]
      · by_cases hp : c.firework ∈ PARTICLE_FIREWORK_TYPES
        · simp only [if_pos hp]
        · simp only [if_neg hp]

theorem finInv_step (P : ProfileSettings) (c : Cue) (l : List Cue) (st : FinState)
    (hc : ∀ x ∈ l, c.timestamp ≤ x.timestamp)
    (h : FinInv P.min_time_between_same_type_cues st (c :: l)) :
    FinInv P.min_time_between_same_type_cues (finalizeStep P st c) l := by
  obtain ⟨h1, h2, h3, h4, h5⟩ := h
  rcases finalizeStep_fields P st c with ⟨hf, hl⟩ | ⟨hf, hl, hkeep⟩
  · refine ⟨hf ▸ h1, ?_, ?_, ?_, ?_⟩
    · intro a ha t ht
      exact h2 a (hf ▸ ha) t (by rw [← hl]; exact ht)
    · intro fw hfw a ha
      exact h3 fw (by rw [← hl]; exact hfw) a (hf ▸ ha)
    · intro a ha x hx
      exact h4 a (hf ▸ ha) x (List.mem_cons_of_mem c hx)
    · intro fw t ht x hx
      exact h5 fw t (by rw [← hl]; exact ht) x (List.mem_cons_of_mem c hx)
  · have hkeep' : ∀ t, st.lastByType c.firework = some t →
        P.min_time_between_same_type_cues ≤ c.timestamp - t := by
      intro t ht
      rw [ht] at hkeep
      simp only [ltGapB] at hkeep
      have := of_decide_eq_false hkeep
      linarith [not_lt.mp this]
    refine ⟨?_, ?_, ?_, ?_, ?_⟩
    · rw [hf, List.pairwise_append]
      refine ⟨h1, List.pairwise_singleton _ _, ?_⟩
      intro a ha b hb hab
      have hb' : b = c := List.mem_singleton.mp hb
      rw [hb'] at hab ⊢
      cases hlast : (st.lastByType c.firework) with
      | none => exact absurd hab (h3 c.firework hlast a ha)
      | some t =>
        have h2' := h2 a ha t (by rw [hab]; exact hlast)
        have := hkeep' t hlast
        linarith
    · intro a ha t ht
      rw [hf] at ha
      rw [hl] at ht
      replace ht : (if a.firework = c.firework then some c.timestamp
          else st.lastByType a.firework) = some t := ht
      rcases List.mem_append.mp ha with ha | ha
      · by_cases hfw : a.firework = c.firework
        · rw [if_pos hfw] at ht
          exact (Option.some.inj ht) ▸ h4 a ha c (List.mem_cons_self c l)
        · rw [if_neg hfw] at ht
          exact h2 a ha t ht
      · have ha' : a = c := List.mem_singleton.mp ha
        subst ha'
        rw [if_pos rfl] at ht
        exact le_of_eq (Option.some.inj ht)
    · intro fw hfw a ha
      rw [hl] at hfw
      replace hfw : (if fw = c.firework then some c.timestamp
          else st.lastByType fw) = none := hfw
      rw [hf] at ha
      by_cases hfc : fw = c.firework
      · rw [if_pos hfc] at hfw
        exact absurd hfw (by simp)
      · rw [if_neg hfc] at hfw
        rcases List.mem_append.mp ha with ha | ha
        · exact h3 fw hfw a ha
        · have ha' : a = c := List.mem_singleton.mp ha
          subst ha'
          exact fun hh => hfc (hh ▸ rfl)
    · intro a ha x hx
      rw [hf] at ha
      rcases List.mem_append.mp ha with ha | ha
      · exact h4 a ha x (List.mem_cons_of_mem c hx)
      · have ha' : a = c := List.mem_singleton.mp ha
        subst ha'
        exact hc x hx
    · intro fw t ht x hx
      rw [hl] at ht
      replace ht : (if fw = c.firework then some c.timestamp
          else st.lastByType fw) = some t := ht
      by_cases hfc : fw = c.firework
      · rw [if_pos hfc] at ht
        rw [← Option.some.inj ht]
        exact hc x hx
      · rw [if_neg hfc] at ht
        exact h5 fw t ht x (List.mem_cons_of_mem c hx)

theorem finInv_fold (P : ProfileSettings) :
    ∀ (l : List Cue) (st : FinState),
      l.Pairwise (fun a b => a.timestamp ≤ b.timestamp) →
      FinInv P.min_time_between_same_type_cues st l →
      FinInv P.min_time_between_same_type_cues (l.foldl (finalizeStep P) st) [] := by
  intro l
  induction l with
  | nil => exact fun st _ h => h
  | cons c rest ih =>
    intro st hp h
    rcases hp with _ | ⟨hc, hrest⟩
    exact ih (finalizeStep P st c) hrest (finInv_step P c rest st hc h)

theorem finalize_pairwise_gap (P : ProfileSettings) (l : List Cue)
    (hl : l.Pairwise (fun a b => a.timestamp ≤ b.timestamp)) :
    (finalize P l).Pairwise (fun a b =>
      a.firework = b.firework →
        P.min_time_between_same_type_cues ≤ b.timestamp - a.timestamp) := by
  have h0 : FinInv P.min_time_between_same_type_cues finalizeInit l := by
    refine ⟨List.Pairwise.nil, ?_, ?_, ?_, ?_⟩ <;> simp [finalizeInit]
  exact (finInv_fold P l finalizeInit hl h0).1

/-- C8: Same-category spacing invariant — for every pair of cues in the
final output sequence that have the same category, the absolute difference
of their timestamps is at least `min_same_category_gap`
(`min_time_between_same_type_cues`). -/
theorem same_category_spacing (sr hop : ℕ)
    (beat_times onset_times rms sc flux : List ℚ)
    (P : ProfileSettings) (ids : ℕ → String) :
    (generate_cues sr hop beat_times onset_times rms sc flux P ids).Pairwise
      (fun a b => a.firework = b.firework →
        P.min_time_between_same_type_cues ≤ |b.timestamp - a.timestamp|) := by
  rw [generate_cues]
  split
  · exact List.Pairwise.nil
  · refine List.Pairwise.imp ?_
      (finalize_pairwise_gap P _
        (dedupStage_pairwise sr hop beat_times onset_times rms sc flux P ids))
    intro a b h hfw
    exact le_trans (h hfw) (le_abs_self _)

/-- C10: The Finalizer only deletes — the final cue list is a sublist (same
records, same relative order, no field modified) of the sorted,
deduplicated candidate list, and consequently its timestamps are
non-decreasing. -/
theorem finalizer_only_deletes (sr hop : ℕ)
    (beat_times onset_times rms sc flux : List ℚ)
    (P : ProfileSettings) (ids : ℕ → String) :
    (generate_cues sr hop beat_times onset_times rms sc flux P ids).Sublist
      (dedupStage sr hop beat_times onset_times rms sc flux P ids) ∧
    (generate_cues sr hop beat_times onset_times rms sc flux P ids).Pairwise
      (fun a b => a.timestamp ≤ b.timestamp) := by
  rw [generate_cues]
  split
  · exact ⟨List.nil_sublist _, List.Pairwise.nil⟩
  · exact ⟨finalize_sublist P _,
      List.Pairwise.sublist (finalize_sublist P _)
        (dedupStage_pairwise sr hop beat_times onset_times rms sc flux P ids)⟩

/-! ## C5: the event-time to frame-index conversion -/

theorem ratFloor_eq_intFloor (q : ℚ) : Rat.floor q = ⌊q⌋ := by
  rw [Rat.floor_def', Rat.floor_def]

theorem floor_div_nat_floor (x : ℚ) (n : ℕ) (hn : 0 < n) :
    ⌊(⌊x⌋ : ℚ) / (n : ℚ)⌋ = ⌊x / (n : ℚ)⌋ := by
  have hn' : (0:ℚ) < n := by exact_mod_cast hn
  have key : ∀ z : ℤ, z ≤ ⌊(⌊x⌋ : ℚ) / (n : ℚ)⌋ ↔ z ≤ ⌊x / (n : ℚ)⌋ := by
    intro z
    rw [Int.le_floor, Int.le_floor, le_div_iff₀ hn', le_div_iff₀ hn']
    constructor
    · intro h
      exact le_trans h (Int.floor_le x)
    · intro h
      have h1 : ((z * n : ℤ) : ℚ) ≤ x := by push_cast; linarith
      have h2 : (z * n : ℤ) ≤ ⌊x⌋ := Int.le_floor.mpr h1
      have h3 : ((z * n : ℤ) : ℚ) ≤ (⌊x⌋ : ℚ) := by exact_mod_cast h2
      push_cast at h3
      linarith
  exact le_antisymm ((key _).mp le_rfl) ((key _).mpr le_rfl)

/-- C5 (amended): the frame index used to sample the feature arrays is the
floor of `time * sample_rate / hop_size` (truncate the sample count, then
floor-divide by the hop), not the nearest-hop rounding, for every
nonnegative event time and positive hop. -/
theorem frame_index_floor (t : ℚ) (sr hop : ℕ) (ht : 0 ≤ t) (hhop : 0 < hop) :
    time_to_frames t sr hop = ⌊t * (sr : ℚ) / (hop : ℚ)⌋ := by
  have hx : (0:ℚ) ≤ t * (sr : ℚ) := mul_nonneg ht (by positivity)
  rw [time_to_frames, pyTrunc, if_pos hx, ratFloor_eq_intFloor]
  rw [Int.fdiv_eq_ediv _ (by exact_mod_cast Nat.zero_le hop)]
  rw [← Rat.floor_intCast_div_natCast ⌊t * (sr : ℚ)⌋ hop]
  exact floor_div_nat_floor (t * (sr : ℚ)) hop hhop

/-- C5 witness: at `t = 1/100` s, `sr = 51200`, `hop = 512`, the hypotheses
of `frame_index_floor` hold and the index is the floor value. -/
theorem frame_index_floor_witness :
    (0:ℚ) ≤ 1/100 ∧ 0 < 512 ∧
      time_to_frames (1/100) 51200 512 = ⌊(1/100 : ℚ) * (51200 : ℚ) / (512 : ℚ)⌋ :=
  ⟨by norm_num, by norm_num, frame_index_floor (1/100) 51200 512 (by norm_num) (by norm_num)⟩

/-- C5 counterexample: at `t = 1331/22050` s with `sr = 22050` and
`hop = 512` (so `t*sr/hop = 2.599...`), the code computes frame 2 while
nearest-hop rounding gives 3. -/
theorem frame_index_round_counterexample :
    time_to_frames (1331/22050) 22050 512 = 2 ∧
      round ((1331/22050 : ℚ) * (22050 : ℚ) / (512 : ℚ)) = 3 ∧
      time_to_frames (1331/22050) 22050 512 ≠
        round ((1331/22050 : ℚ) * (22050 : ℚ) / (512 : ℚ)) := by
  refine ⟨by decide, ?_, ?_⟩
  · rw [round_eq]
    norm_num
  · rw [round_eq]
    norm_num
    decide

/-! ## C6: the Threshold Resolver fallback chain -/

/-- C6 (amended): the Resolver is total (never raises) and resolves each
threshold by: the requested key's value if present; otherwise, for the
bass-centroid threshold with a 25th percentile present, the 25th
percentile; otherwise the 50th percentile if present; otherwise the
profile's median field, defaulting to zero.  (The claim's intermediate
10th-percentile preference is unreachable in the source: the lower-fallback
branch is itself guarded by the presence of the 25th percentile.) -/
theorem threshold_fallback_chain (profile : List (String × ℚ)) (key ft : String) :
    (∀ v, List.lookup key profile = some v →
      get_profile_value profile key ft = v) ∧
    (ft = "sc_bass" → List.lookup key profile = none →
      ∀ v, List.lookup "p25" profile = some v →
        get_profile_value profile key ft = v) ∧
    ((ft ≠ "sc_bass" ∨ List.lookup "p25" profile = none) →
      List.lookup key profile = none →
      ∀ v, List.lookup "p50" profile = some v →
        get_profile_value profile key ft = v) ∧
    (List.lookup key profile = none →
      (ft ≠ "sc_bass" ∨ List.lookup "p25" profile = none) →
      List.lookup "p50" profile = none →
      get_profile_value profile key ft = (List.lookup "median" profile).getD 0) := by
  refine ⟨?_, ?_, ?_, ?_⟩
  · intro v hv
    simp [get_profile_value, hv]
  · intro hft hkey v hp25
    subst hft
    simp [get_profile_value, hkey, hp25]
  · rintro (hft | hp25) hkey v hp50
    · simp [get_profile_value, hft, hkey, hp50]
    · simp [get_profile_value, hp25, hkey, hp50]
  · rintro hkey (hft | hp25) hp50
    · simp [get_profile_value, hft, hkey, hp50]
    · simp [get_profile_value, hp25, hkey, hp50]

/-- C6 witness: concrete resolutions through each arm of the fallback
chain — present key, bass-centroid fallback to the 25th percentile, and
the median default. -/
theorem threshold_fallback_chain_witness :
    get_profile_value [("p60", 4)] "p60" "RMS" = 4 ∧
    get_profile_value [("p25", 9), ("median", 3)] "p45" "sc_bass" = 9 ∧
    get_profile_value [("median", 3)] "p45" "RMS" = 3 :=
  ⟨(threshold_fallback_chain [("p60", 4)] "p60" "RMS").1 4 (by decide),
   (threshold_fallback_chain [("p25", 9), ("median", 3)] "p45" "sc_bass").2.1
     rfl (by decide) 9 (by decide),
   ((threshold_fallback_chain [("median", 3)] "p45" "RMS").2.2.2
     (by decide) (Or.inl (by decide)) (by decide)).trans (by decide)⟩

/-- C6 counterexample: a profile containing a 10th percentile and a median
but neither the requested key nor the 25th/50th percentiles.  The claim's
chain (25th, then 10th, then 50th) would return the 10th percentile (7);
the code falls back directly to the 50th percentile and, finding it
missing, returns the median (3). -/
theorem threshold_fallback_counterexample :
    get_profile_value [("p10", 7), ("median", 3)] "p45" "sc_bass" = 3 ∧
    get_profile_value_claimed [("p10", 7), ("median", 3)] "p45" = 7 ∧
    get_profile_value [("p10", 7), ("median", 3)] "p45" "sc_bass" ≠
      get_profile_value_claimed [("p10", 7), ("median", 3)] "p45" := by
  refine ⟨by decide, by decide, by decide⟩

/-! ## C1: the particle/ambient partition -/

/-- C1 (amended): the particle class comprises four categories — the two
beat-driven ones (`mid_burst`, `high_sparkle`) plus `kick_boom` and
`comet_tail` — leaving only deep-bass (`bass_pulse`) ambient; and the
Finalizer's cross-category limiter applies to a cue exactly when its
category is in that class: a cue outside the class that passes the
same-category test is always kept (and leaves the particle clock alone),
while a cue inside the class that passes the same-category test is dropped
whenever the particle clock is too close. -/
theorem particle_class_amended :
    PARTICLE_FIREWORK_TYPES = ["mid_burst", "high_sparkle", "kick_boom", "comet_tail"] ∧
    (∀ (P : ProfileSettings) (st : FinState) (c : Cue),
      c.firework ∉ PARTICLE_FIREWORK_TYPES →
      ltGapB (st.lastByType c.firework) c.timestamp
        P.min_time_between_same_type_cues = false →
      (finalizeStep P st c).final = st.final ++ [c] ∧
        (finalizeStep P st c).lastParticle = st.lastParticle) ∧
    (∀ (P : ProfileSettings) (st : FinState) (c : Cue),
      c.firework ∈ PARTICLE_FIREWORK_TYPES →
      ltGapB (st.lastByType c.firework) c.timestamp
        P.min_time_between_same_type_cues = false →
      ltGapB st.lastParticle c.timestamp
        P.min_time_between_any_particle_cues = true →
      (finalizeStep P st c).final = st.final) := by
  refine ⟨by decide, ?_, ?_⟩
  · intro P st c hnp hsame
    rw [finalizeStep, if_neg (by simp [hsame]), if_neg (by simp [hnp]),
      if_neg hnp]
    exact ⟨rfl, rfl⟩
  · intro P st c hp hsame hclose
    rw [finalizeStep, if_neg (by simp [hsame]), if_pos ⟨hp, hclose⟩]

/-- C1 witness: with the particle clock at time 0 and a gap of 0.08 s
(balanced profile), a `bass_pulse` cue 0.01 s later is kept — the limiter
does not apply to it — while a `mid_burst` cue 0.01 s later is dropped —
the limiter does apply to the beat-driven category. -/
theorem particle_class_amended_witness :
    (finalizeStep balancedProfile ⟨fun _ => none, some 0, []⟩
      ⟨"", 1/100, "bass_pulse", "onset_bass"⟩).final
      = [⟨"", 1/100, "bass_pulse", "onset_bass"⟩] ∧
    (finalizeStep balancedProfile ⟨fun _ => none, some 0, []⟩
      ⟨"", 1/100, "mid_burst", "beat"⟩).final = [] :=
  ⟨((particle_class_amended.2.1 balancedProfile ⟨fun _ => none, some 0, []⟩
      ⟨"", 1/100, "bass_pulse", "onset_bass"⟩ (by decide) (by decide)).1).trans rfl,
   particle_class_amended.2.2 balancedProfile ⟨fun _ => none, some 0, []⟩
      ⟨"", 1/100, "mid_burst", "beat"⟩ (by decide) (by decide) (by decide)⟩

/-- C1 counterexample: the partition the claim states does not match the
code.  `bass_pulse` (deep-bass) is in the claimed particle class but not in
the code's `PARTICLE_FIREWORK_TYPES`; `mid_burst` (a beat-driven category)
is in the code's particle class but claimed ambient; and the limiter
follows the code's class, not the claimed one: a `mid_burst` cue 0.01 s
after a kept `kick_boom` is dropped, while a `bass_pulse` cue 0.01 s after
a kept `kick_boom` is kept. -/
theorem particle_class_claim_counterexample :
    ("bass_pulse" ∈ claimedParticleCategories ∧
      "bass_pulse" ∉ PARTICLE_FIREWORK_TYPES) ∧
    ("mid_burst" ∈ PARTICLE_FIREWORK_TYPES ∧
      "mid_burst" ∉ claimedParticleCategories) ∧
    finalize balancedProfile
      [⟨"", 0, "kick_boom", "onset_kick"⟩, ⟨"", 1/100, "mid_burst", "beat"⟩]
      = [⟨"", 0, "kick_boom", "onset_kick"⟩] ∧
    finalize balancedProfile
      [⟨"", 0, "kick_boom", "onset_kick"⟩, ⟨"", 1/100, "bass_pulse", "onset_bass"⟩]
      = [⟨"", 0, "kick_boom", "onset_kick"⟩, ⟨"", 1/100, "bass_pulse", "onset_bass"⟩] := by
  refine ⟨by decide, by decide, by decide, by decide⟩

/-! ## C2: the particle limiter has no co-fire override -/

/-- C2 (amended): the particle-class limiter is unconditional.  A
particle-class cue that passed the same-category limiter is dropped — with
the whole limiter state unchanged — whenever its timestamp is closer than
`min_particle_gap` to the last kept particle-class cue, with no exception
for a preceding kept cue at the identical timestamp of a different
particle category; otherwise it is kept and the particle clock moves to
its timestamp. -/
theorem particle_limiter_no_override (P : ProfileSettings) (st : FinState) (c : Cue)
    (hp : c.firework ∈ PARTICLE_FIREWORK_TYPES)
    (hsame : ltGapB (st.lastByType c.firework) c.timestamp
      P.min_time_between_same_type_cues = false) :
    (ltGapB st.lastParticle c.timestamp
        P.min_time_between_any_particle_cues = true →
      finalizeStep P st c = st) ∧
    (ltGapB st.lastParticle c.timestamp
        P.min_time_between_any_particle_cues = false →
      (finalizeStep P st c).final = st.final ++ [c] ∧
        (finalizeStep P st c).lastParticle = some c.timestamp) := by
  constructor
  · intro hclose
    rw [finalizeStep, if_neg (by simp [hsame]), if_pos ⟨hp, hclose⟩]
  · intro hfar
    rw [finalizeStep, if_neg (by simp [hsame]), if_neg (by simp [hfar]), if_pos hp]
    exact ⟨rfl, rfl⟩

/-- C2 witness: with the balanced profile and the particle clock at 0, a
`comet_tail` cue at the identical timestamp 0 is dropped (the state is
returned unchanged — exactly the situation the claimed override would
rescue), while a `comet_tail` cue at 0.5 s is kept and advances the
particle clock. -/
theorem particle_limiter_no_override_witness :
    finalizeStep balancedProfile ⟨fun _ => none, some 0, []⟩
        ⟨"", 0, "comet_tail", "onset_flux"⟩ = ⟨fun _ => none, some 0, []⟩ ∧
    (finalizeStep balancedProfile ⟨fun _ => none, some 0, []⟩
        ⟨"", 1/2, "comet_tail", "onset_flux"⟩).final
      = [⟨"", 1/2, "comet_tail", "onset_flux"⟩] :=
  ⟨(particle_limiter_no_override balancedProfile ⟨fun _ => none, some 0, []⟩
      ⟨"", 0, "comet_tail", "onset_flux"⟩ (by decide) (by decide)).1 (by decide),
   ((particle_limiter_no_override balancedProfile ⟨fun _ => none, some 0, []⟩
      ⟨"", 1/2, "comet_tail", "onset_flux"⟩ (by decide) (by decide)).2 (by decide)).1.trans rfl⟩

/-- C2 counterexample: a full run (balanced profile, one onset and one beat
both at t = 0) whose deduplicated candidate list holds two particle-class
cues of different categories at the identical timestamp.  The claim's
override would keep both; the code keeps only the first and drops the
second. -/
theorem particle_limiter_override_counterexample :
    dedupStage 51200 512 [0] [0] exRms exSc exFlux balancedProfile exIds
      = [⟨"", 0, "kick_boom", "onset_kick"⟩, ⟨"", 0, "mid_burst", "beat"⟩] ∧
    "kick_boom" ∈ PARTICLE_FIREWORK_TYPES ∧
    "mid_burst" ∈ PARTICLE_FIREWORK_TYPES ∧
    generate_cues 51200 512 [0] [0] exRms exSc exFlux balancedProfile exIds
      = [⟨"", 0, "kick_boom", "onset_kick"⟩] := by
  refine ⟨by decide, by decide, by decide, by decide⟩

/-! ## C3: frame effect of an out-of-range event -/

theorem boostCheck_fields (P : ProfileSettings) (rp scp fp : List (String × ℚ))
    (st : GenState) (e : Event) :
    (boostCheck P rp scp fp st e).potential = st.potential ∧
    (boostCheck P rp scp fp st e).nextId = st.nextId ∧
    (boostCheck P rp scp fp st e).timeOfLast = st.timeOfLast := by
  rw [boostCheck]
  split <;> exact ⟨rfl, rfl, rfl⟩

/-- C3 (amended): an event whose frame index falls out of bounds emits no
cue and leaves `time_of_last_generated_cue_overall` (and the candidate
list) unchanged, but it is NOT a complete no-op on the classifier state:
the whole step collapses to the boost prologue, which runs before the
bounds check and may still switch the regime from Normal to Boosted and
recompute the active ThresholdSet. -/
theorem skip_event_frame_effect (P : ProfileSettings) (rp scp fp : List (String × ℚ))
    (rms sc flux : List ℚ) (sr hop : ℕ) (ids : ℕ → String)
    (st : GenState) (e : Event)
    (h : frameOK (time_to_frames e.time sr hop) rms.length sc.length flux.length
      e.kind = false) :
    stepEvent P rp scp fp rms sc flux sr hop ids st e = boostCheck P rp scp fp st e ∧
    (stepEvent P rp scp fp rms sc flux sr hop ids st e).potential = st.potential ∧
    (stepEvent P rp scp fp rms sc flux sr hop ids st e).nextId = st.nextId ∧
    (stepEvent P rp scp fp rms sc flux sr hop ids st e).timeOfLast = st.timeOfLast := by
  have h1 : stepEvent P rp scp fp rms sc flux sr hop ids st e
      = boostCheck P rp scp fp st e := by
    rw [stepEvent, classifyCore, if_neg (by simp [h])]
  refine ⟨h1, ?_, ?_, ?_⟩ <;> rw [h1]
  · exact (boostCheck_fields P rp scp fp st e).1
  · exact (boostCheck_fields P rp scp fp st e).2.1
  · exact (boostCheck_fields P rp scp fp st e).2.2

/-- C3 witness: a concrete out-of-range event (t = 100 s against
single-frame feature arrays): the step equals the boost prologue alone and
emits nothing. -/
theorem skip_event_frame_effect_witness :
    frameOK (time_to_frames 100 51200 512) 1 1 1 "onset" = false ∧
    (stepEvent balancedProfile [] [] [] [1] [1] [1] 51200 512 exIds
        (initState [] [] [] balancedProfile) ⟨100, "onset"⟩).potential = [] ∧
    stepEvent balancedProfile [] [] [] [1] [1] [1] 51200 512 exIds
        (initState [] [] [] balancedProfile) ⟨100, "onset"⟩
      = boostCheck balancedProfile [] [] [] (initState [] [] [] balancedProfile)
          ⟨100, "onset"⟩ :=
  ⟨by decide,
   ((skip_event_frame_effect balancedProfile [] [] [] [1] [1] [1] 51200 512 exIds
      (initState [] [] [] balancedProfile) ⟨100, "onset"⟩ (by decide)).2.1).trans rfl,
   (skip_event_frame_effect balancedProfile [] [] [] [1] [1] [1] 51200 512 exIds
      (initState [] [] [] balancedProfile) ⟨100, "onset"⟩ (by decide)).1⟩

/-- C3 counterexample: the same out-of-range event does change the
classifier state — scanned from the initial Normal state it activates the
sensitivity boost (the bounds check runs only after the boost prologue),
so the state is not "exactly as it was before the event was scanned". -/
theorem skip_event_state_counterexample :
    frameOK (time_to_frames 100 51200 512) 1 1 1 "onset" = false ∧
    (initState [] [] [] balancedProfile).boosted = false ∧
    (stepEvent balancedProfile [] [] [] [1] [1] [1] 51200 512 exIds
        (initState [] [] [] balancedProfile) ⟨100, "onset"⟩).boosted = true := by
  refine ⟨by decide, by decide, by decide⟩

/-! ## C7: the boost lifecycle -/

/-- C7: Boost lifecycle — the scan starts Normal with the last-cue time at
`-inf` and the normal ThresholdSet; scanning an event whose quiet-gap test
fires (with a finite configured gap) from a Normal state classifies that
very event under the boosted ThresholdSet; and any event that emits at
least one candidate cue while Boosted leaves the machine Normal again,
with the normal ThresholdSet restored and the last-cue time set to the
event's rounded time, before the next event is scanned. -/
theorem boost_lifecycle :
    (∀ (rp scp fp : List (String × ℚ)) (P : ProfileSettings),
      (initState rp scp fp P).boosted = false ∧
      (initState rp scp fp P).timeOfLast = none ∧
      (initState rp scp fp P).thresholds
        = DynamicThresholds.ofProfiles rp scp fp P.dynamic_threshold_keys) ∧
    (∀ (P : ProfileSettings) (rp scp fp : List (String × ℚ))
        (rms sc flux : List ℚ) (sr hop : ℕ) (ids : ℕ → String)
        (st : GenState) (e : Event) (q : ℚ),
      st.boosted = false →
      P.quiet_duration_for_boost = some q →
      gapExceeded st.timeOfLast e.time P.quiet_duration_for_boost = true →
      stepEvent P rp scp fp rms sc flux sr hop ids st e
        = classifyCore P rp scp fp rms sc flux sr hop ids
            { st with
              boosted := true,
              thresholds := DynamicThresholds.ofProfiles rp scp fp
                P.dynamic_threshold_keys_boost } e) ∧
    (∀ (P : ProfileSettings) (rp scp fp : List (String × ℚ))
        (rms sc flux : List ℚ) (sr hop : ℕ) (ids : ℕ → String)
        (st : GenState) (e : Event),
      st.boosted = true →
      (stepEvent P rp scp fp rms sc flux sr hop ids st e).potential.length
        > st.potential.length →
      (stepEvent P rp scp fp rms sc flux sr hop ids st e).boosted = false ∧
      (stepEvent P rp scp fp rms sc flux sr hop ids st e).thresholds
        = DynamicThresholds.ofProfiles rp scp fp P.dynamic_threshold_keys ∧
      (stepEvent P rp scp fp rms sc flux sr hop ids st e).timeOfLast
        = some (pyRound3 e.time)) := by
  refine ⟨fun rp scp fp P => ⟨rfl, rfl, rfl⟩, ?_, ?_⟩
  · intro P rp scp fp rms sc flux sr hop ids st e q hb hq hg
    rw [stepEvent, boostCheck, if_pos ⟨hb, hg⟩]
  · intro P rp scp fp rms sc flux sr hop ids st e hb hlen
    have hbc : boostCheck P rp scp fp st e = st := by
      rw [boostCheck, if_neg]
      intro hcond
      rw [hb] at hcond
      exact absurd hcond.1 (by simp)
    rw [stepEvent, hbc] at hlen ⊢
    simp only [classifyCore] at hlen ⊢
    by_cases hfk : frameOK (time_to_frames e.time sr hop) rms.length sc.length
        flux.length e.kind = true
    · rw [if_pos hfk] at hlen ⊢
      by_cases hc : eventCandidates P st.thresholds e.kind
          (getQ rms (time_to_frames e.time sr hop))
          (getQ sc (time_to_frames e.time sr hop))
          (getQ flux (time_to_frames e.time sr hop)) = []
      · rw [if_pos hc] at hlen
        exact absurd hlen (lt_irrefl _)
      · rw [if_neg hc] at hlen ⊢
        rw [if_pos hb]
        exact ⟨rfl, rfl, rfl⟩
    · rw [if_neg hfk] at hlen
      exact absurd hlen (lt_irrefl _)

/-- C7 witness: on the example run, the first event (onset at 0 s, scanned
from the entry state with its `-inf` last-cue time and the finite 5 s
quiet gap of the balanced profile) is classified under boosted thresholds;
and from the boosted state that same onset emits a cue, after which the
state is Normal with the normal ThresholdSet and the last-cue time 0. -/
theorem boost_lifecycle_witness :
    (stepEvent balancedProfile exRmsProfile exScProfile exFluxProfile exRms exSc exFlux
        51200 512 exIds exInitState ⟨0, "onset"⟩
      = classifyCore balancedProfile exRmsProfile exScProfile exFluxProfile exRms exSc exFlux
          51200 512 exIds
          { exInitState with
            boosted := true,
            thresholds := DynamicThresholds.ofProfiles exRmsProfile exScProfile exFluxProfile
              balancedProfile.dynamic_threshold_keys_boost } ⟨0, "onset"⟩) ∧
    (stepEvent balancedProfile exRmsProfile exScProfile exFluxProfile exRms exSc exFlux
        51200 512 exIds exBoostState ⟨0, "onset"⟩).potential.length
      > exBoostState.potential.length ∧
    (stepEvent balancedProfile exRmsProfile exScProfile exFluxProfile exRms exSc exFlux
        51200 512 exIds exBoostState ⟨0, "onset"⟩).boosted = false ∧
    (stepEvent balancedProfile exRmsProfile exScProfile exFluxProfile exRms exSc exFlux
        51200 512 exIds exBoostState ⟨0, "onset"⟩).thresholds
      = DynamicThresholds.ofProfiles exRmsProfile exScProfile exFluxProfile
          balancedProfile.dynamic_threshold_keys ∧
    (stepEvent balancedProfile exRmsProfile exScProfile exFluxProfile exRms exSc exFlux
        51200 512 exIds exBoostState ⟨0, "onset"⟩).timeOfLast = some (pyRound3 0) :=
  ⟨boost_lifecycle.2.1 balancedProfile exRmsProfile exScProfile exFluxProfile
      exRms exSc exFlux 51200 512 exIds exInitState ⟨0, "onset"⟩ 5
      (by decide) rfl (by decide),
   by decide,
   (boost_lifecycle.2.2 balancedProfile exRmsProfile exScProfile exFluxProfile
      exRms exSc exFlux 51200 512 exIds exBoostState ⟨0, "onset"⟩
      (by decide) (by decide)).1,
   (boost_lifecycle.2.2 balancedProfile exRmsProfile exScProfile exFluxProfile
      exRms exSc exFlux 51200 512 exIds exBoostState ⟨0, "onset"⟩
      (by decide) (by decide)).2.1,
   (boost_lifecycle.2.2 balancedProfile exRmsProfile exScProfile exFluxProfile
      exRms exSc exFlux 51200 512 exIds exBoostState ⟨0, "onset"⟩
      (by decide) (by decide)).2.2⟩

/-! ## C9: survival of the first cue -/

theorem finalizeStep_init_final (P : ProfileSettings) (c : Cue) :
    (finalizeStep P finalizeInit c).final = [c] := by
  rw [finalizeStep]
  rw [if_neg (by simp [finalizeInit, ltGapB])]
  rw [if_neg (by simp [finalizeInit, ltGapB])]
  by_cases hp : c.firework ∈ PARTICLE_FIREWORK_TYPES
  · rw [if_pos hp]
    rfl
  · rw [if_neg hp]
    rfl

theorem finalize_head (P : ProfileSettings) (c : Cue) (rest : List Cue) :
    (finalize P (c :: rest)).head? = some c := by
  rw [finalize, List.foldl_cons]
  obtain ⟨s, hs, -⟩ := foldl_finalizeStep_sublist P rest (finalizeStep P finalizeInit c)
  rw [hs, finalizeStep_init_final]
  rfl

/-- C9 (amended): the first cue of the sorted, deduplicated candidate list
always survives both rate limiters (both last-seen clocks start at `-inf`),
so the final cue list is non-empty whenever the classifier produced at
least one candidate (and the feature arrays were non-empty).  The earliest
cue *of a given category*, however, is only guaranteed past the
same-category limiter — the cross-category particle limiter can still drop
it. -/
theorem first_cue_survives :
    (∀ (P : ProfileSettings) (c : Cue) (rest : List Cue),
      (finalize P (c :: rest)).head? = some c) ∧
    (∀ (sr hop : ℕ) (beat_times onset_times rms sc flux : List ℚ)
        (P : ProfileSettings) (ids : ℕ → String),
      rms ≠ [] → sc ≠ [] → flux ≠ [] →
      potentialStage sr hop beat_times onset_times rms sc flux P ids ≠ [] →
      generate_cues sr hop beat_times onset_times rms sc flux P ids ≠ []) := by
  refine ⟨finalize_head, ?_⟩
  intro sr hop beat_times onset_times rms sc flux P ids hrms hsc hflux hpot
  rw [generate_cues, if_neg (by simp [hrms, hsc, hflux])]
  cases hs : (sortedStage sr hop beat_times onset_times rms sc flux P ids) with
  | nil =>
    exfalso
    cases hp : (potentialStage sr hop beat_times onset_times rms sc flux P ids) with
    | nil => exact hpot hp
    | cons c cs =>
      rw [sortedStage, hp] at hs
      exact stableSort_ne_nil cueLe c cs hs
  | cons c cs =>
    rw [dedupStage, hs, dedup]
    intro hcontra
    have hh := finalize_head P c (dedupGo c cs)
    rw [hcontra] at hh
    exact absurd hh (by simp)

/-- C9 witness: the head of a nonempty deduplicated list survives, and on
the example run (whose candidate stage is nonempty) the final cue list is
nonempty. -/
theorem first_cue_survives_witness :
    (finalize balancedProfile [⟨"", 0, "kick_boom", "onset_kick"⟩]).head?
      = some ⟨"", 0, "kick_boom", "onset_kick"⟩ ∧
    generate_cues 51200 512 [0] [0] exRms exSc exFlux balancedProfile exIds ≠ [] :=
  ⟨first_cue_survives.1 balancedProfile ⟨"", 0, "kick_boom", "onset_kick"⟩ [],
   first_cue_survives.2 51200 512 [0] [0] exRms exSc exFlux balancedProfile exIds
     (by decide) (by decide) (by decide) (by decide)⟩

/-- C9 counterexample: on the example run with onsets at 0 s and 0.01 s,
the deduplicated candidate list contains exactly one `comet_tail` cue — the
earliest of its category — and the final list does not contain it: it was
dropped by the cross-category particle limiter, contradicting the claim
that the earliest cue of each category is never dropped. -/
theorem first_cue_survives_counterexample :
    dedupStage 51200 512 [] [0, 1/100] exRms exSc exFlux balancedProfile exIds
      = [⟨"", 0, "kick_boom", "onset_kick"⟩, ⟨"", 1/100, "comet_tail", "onset_flux"⟩] ∧
    generate_cues 51200 512 [] [0, 1/100] exRms exSc exFlux balancedProfile exIds
      = [⟨"", 0, "kick_boom", "onset_kick"⟩] :=
  ⟨by decide, by decide⟩

/-! ## C4: determinism up to the generated ids -/

@[simp] theorem eraseId_timestamp (c : Cue) : (eraseId c).timestamp = c.timestamp := rfl

@[simp] theorem eraseId_firework (c : Cue) : (eraseId c).firework = c.firework := rfl

@[simp] theorem eraseId_source (c : Cue) : (eraseId c).source = c.source := rfl

theorem attachIds_map_erase (t : ℚ) :
    ∀ (cands : List (String × String)) (ids ids2 : ℕ → String) (nid nid2 : ℕ),
      (attachIds ids nid t cands).map eraseId
        = (attachIds ids2 nid2 t cands).map eraseId := by
  intro cands
  induction cands with
  | nil => intro ids ids2 nid nid2; rfl
  | cons p rest ih =>
    intro ids ids2 nid nid2
    obtain ⟨fw, src⟩ := p
    simp only [attachIds, List.map_cons]
    exact congrArg _ (ih ids ids2 (nid + 1) (nid2 + 1))

theorem attachIds_length (ids : ℕ → String) (t : ℚ) :
    ∀ (cands : List (String × String)) (nid : ℕ),
      (attachIds ids nid t cands).length = cands.length := by
  intro cands
  induction cands with
  | nil => intro nid; rfl
  | cons p rest ih =>
    intro nid
    obtain ⟨fw, src⟩ := p
    simp only [attachIds, List.length_cons, ih]

theorem boostCheck_rel (P : ProfileSettings) (rp scp fp : List (String × ℚ))
    (s s2 : GenState) (h : GenRel s s2) (e : Event) :
    GenRel (boostCheck P rp scp fp s e) (boostCheck P rp scp fp s2 e) := by
  obtain ⟨pot, n, tl, b, th⟩ := s
  obtain ⟨pot2, n2, tl2, b2, th2⟩ := s2
  obtain ⟨h1, h2, h3, h4, h5⟩ := h
  dsimp only at h1 h2 h3 h4 h5
  subst h2; subst h3; subst h4; subst h5
  rw [boostCheck, boostCheck]
  dsimp only
  by_cases hc : (b = false ∧ gapExceeded tl e.time P.quiet_duration_for_boost = true)
  · rw [if_pos hc, if_pos hc]
    exact ⟨h1, rfl, rfl, rfl, rfl⟩
  · rw [if_neg hc, if_neg hc]
    exact ⟨h1, rfl, rfl, rfl, rfl⟩

theorem classifyCore_rel (P : ProfileSettings) (rp scp fp : List (String × ℚ))
    (rms sc flux : List ℚ) (sr hop : ℕ) (ids ids2 : ℕ → String)
    (s s2 : GenState) (h : GenRel s s2) (e : Event) :
    GenRel (classifyCore P rp scp fp rms sc flux sr hop ids s e)
      (classifyCore P rp scp fp rms sc flux sr hop ids2 s2 e) := by
  obtain ⟨pot, n, tl, b, th⟩ := s
  obtain ⟨pot2, n2, tl2, b2, th2⟩ := s2
  obtain ⟨h1, h2, h3, h4, h5⟩ := h
  dsimp only at h1 h2 h3 h4 h5
  subst h2; subst h3; subst h4; subst h5
  rw [classifyCore, classifyCore]
  dsimp only
  by_cases hfk : frameOK (time_to_frames e.time sr hop) rms.length sc.length
      flux.length e.kind = true
  · rw [if_pos hfk, if_pos hfk]
    by_cases hc : eventCandidates P th e.kind
        (getQ rms (time_to_frames e.time sr hop))
        (getQ sc (time_to_frames e.time sr hop))
        (getQ flux (time_to_frames e.time sr hop)) = []
    · rw [if_pos hc, if_pos hc]
      exact ⟨h1, rfl, rfl, rfl, rfl⟩
    · rw [if_neg hc, if_neg hc]
      by_cases hb : b = true
      · rw [if_pos hb, if_pos hb]
        refine ⟨?_, rfl, rfl, rfl, rfl⟩
        dsimp only
        rw [List.map_append, List.map_append, h1,
          attachIds_map_erase (pyRound3 e.time) _ ids ids2 n n]
      · rw [if_neg hb, if_neg hb]
        refine ⟨?_, rfl, rfl, rfl, rfl⟩
        dsimp only
        rw [List.map_append, List.map_append, h1,
          attachIds_map_erase (pyRound3 e.time) _ ids ids2 n n]
  · rw [if_neg hfk, if_neg hfk]
    exact ⟨h1, rfl, rfl, rfl, rfl⟩

theorem stepEvent_rel (P : ProfileSettings) (rp scp fp : List (String × ℚ))
    (rms sc flux : List ℚ) (sr hop : ℕ) (ids ids2 : ℕ → String)
    (s s2 : GenState) (h : GenRel s s2) (e : Event) :
    GenRel (stepEvent P rp scp fp rms sc flux sr hop ids s e)
      (stepEvent P rp scp fp rms sc flux sr hop ids2 s2 e) := by
  rw [stepEvent, stepEvent]
  exact classifyCore_rel P rp scp fp rms sc flux sr hop ids ids2 _ _
    (boostCheck_rel P rp scp fp s s2 h e) e

theorem foldl_stepEvent_rel (P : ProfileSettings) (rp scp fp : List (String × ℚ))
    (rms sc flux : List ℚ) (sr hop : ℕ) (ids ids2 : ℕ → String) :
    ∀ (events : List Event) (s s2 : GenState), GenRel s s2 →
      GenRel (events.foldl (stepEvent P rp scp fp rms sc flux sr hop ids) s)
        (events.foldl (stepEvent P rp scp fp rms sc flux sr hop ids2) s2) := by
  intro events
  induction events with
  | nil => exact fun s s2 h => h
  | cons e rest ih =>
    intro s s2 h
    exact ih _ _ (stepEvent_rel P rp scp fp rms sc flux sr hop ids ids2 s s2 h e)

theorem potentialStage_map_erase (sr hop : ℕ)
    (beat_times onset_times rms sc flux : List ℚ)
    (P : ProfileSettings) (ids ids2 : ℕ → String) :
    (potentialStage sr hop beat_times onset_times rms sc flux P ids).map eraseId
      = (potentialStage sr hop beat_times onset_times rms sc flux P ids2).map eraseId := by
  rw [potentialStage, potentialStage]
  exact (foldl_stepEvent_rel P _ _ _ rms sc flux sr hop ids ids2
    (combinedEvents beat_times onset_times) _ _ ⟨rfl, rfl, rfl, rfl, rfl⟩).1

theorem map_stableInsert (f : α → α) (le : α → α → Bool)
    (hle : ∀ a b, le (f a) (f b) = le a b) (x : α) :
    ∀ l : List α, (stableInsert le x l).map f = stableInsert le (f x) (l.map f) := by
  intro l
  induction l with
  | nil => rfl
  | cons y ys ih =>
    rw [stableInsert, List.map_cons, stableInsert, hle, hle]
    by_cases hc : (le y x = true ∧ ¬ le x y = true)
    · rw [if_pos hc, if_pos hc, List.map_cons, ih]
    · rw [if_neg hc, if_neg hc, List.map_cons, List.map_cons]

theorem map_stableSort (f : α → α) (le : α → α → Bool)
    (hle : ∀ a b, le (f a) (f b) = le a b) :
    ∀ l : List α, (stableSort le l).map f = stableSort le (l.map f) := by
  intro l
  induction l with
  | nil => rfl
  | cons x xs ih =>
    rw [stableSort, List.map_cons, stableSort, map_stableInsert f le hle, ih]

theorem dedupGo_map_erase : ∀ (l : List Cue) (prev : Cue),
    (dedupGo prev l).map eraseId = dedupGo (eraseId prev) (l.map eraseId) := by
  intro l
  induction l with
  | nil => intro prev; rfl
  | cons c rest ih =>
    intro prev
    rw [dedupGo, List.map_cons, dedupGo]
    by_cases hc : (c.timestamp = prev.timestamp ∧ c.firework = prev.firework)
    · rw [if_pos hc, if_pos (by simpa using hc)]
      simpa using ih c
    · rw [if_neg hc, if_neg (by simpa using hc)]
      simp only [List.map_append, List.map_cons, List.map_nil]
      rw [ih c]

theorem dedup_map_erase (l : List Cue) :
    (dedup l).map eraseId = dedup (l.map eraseId) := by
  cases l with
  | nil => rfl
  | cons c rest =>
    simp only [dedup, List.map_cons, dedupGo_map_erase]

theorem foldl_finalizeStep_map_erase (P : ProfileSettings) :
    ∀ (l : List Cue) (lb : String → Option ℚ) (lp : Option ℚ) (fin : List Cue),
      (((l.map eraseId).foldl (finalizeStep P) ⟨lb, lp, fin.map eraseId⟩)).final
        = ((l.foldl (finalizeStep P) ⟨lb, lp, fin⟩).final).map eraseId := by
  intro l
  induction l with
  | nil => intro lb lp fin; rfl
  | cons c rest ih =>
    intro lb lp fin
    rw [List.map_cons, List.foldl_cons, List.foldl_cons]
    rw [finalizeStep, finalizeStep]
    dsimp only [eraseId_timestamp, eraseId_firework]
    by_cases hsame : ltGapB (lb c.firework) c.timestamp
        P.min_time_between_same_type_cues = true
    · rw [if_pos hsame, if_pos hsame]
      exact ih lb lp fin
    · rw [if_neg hsame, if_neg hsame]
      by_cases hpart : (c.firework ∈ PARTICLE_FIREWORK_TYPES ∧
          ltGapB lp c.timestamp P.min_time_between_any_particle_cues = true)
      · rw [if_pos hpart, if_pos hpart]
        exact ih lb lp fin
      · rw [if_neg hpart, if_neg hpart]
        by_cases hp : c.firework ∈ PARTICLE_FIREWORK_TYPES
        · rw [if_pos hp, if_pos hp]
          dsimp only
          have := ih (fun s => if s = c.firework then some c.timestamp else lb s)
            (some c.timestamp) (fin ++ [c])
          simpa using this
        · rw [if_neg hp, if_neg hp]
          dsimp only
          have := ih (fun s => if s = c.firework then some c.timestamp else lb s)
            lp (fin ++ [c])
          simpa using this

theorem finalize_map_erase (P : ProfileSettings) (l : List Cue) :
    finalize P (l.map eraseId) = (finalize P l).map eraseId := by
  rw [finalize, finalize]
  exact foldl_finalizeStep_map_erase P l (fun _ => none) none []

/-- C4 (amended): the core is deterministic up to the `id` field — for any
two runs on identical feature inputs, sample rate, hop size and profile,
the produced FinalCue sequences agree on every field except `id` (which is
fed by the fresh-UUID oracle), whatever ids the two runs draw. -/
theorem determinism_modulo_ids (sr hop : ℕ)
    (beat_times onset_times rms sc flux : List ℚ)
    (P : ProfileSettings) (ids ids2 : ℕ → String) :
    (generate_cues sr hop beat_times onset_times rms sc flux P ids).map eraseId
      = (generate_cues sr hop beat_times onset_times rms sc flux P ids2).map eraseId := by
  by_cases hg : (rms = [] ∨ sc = [] ∨ flux = [])
  · rw [generate_cues, generate_cues, if_pos hg, if_pos hg]
  · rw [generate_cues, generate_cues, if_neg hg, if_neg hg]
    rw [← finalize_map_erase, ← finalize_map_erase]
    congr 1
    rw [dedupStage, dedupStage, dedup_map_erase, dedup_map_erase]
    congr 1
    rw [sortedStage, sortedStage,
      map_stableSort eraseId cueLe (fun a b => rfl),
      map_stableSort eraseId cueLe (fun a b => rfl)]
    congr 1
    exact potentialStage_map_erase sr hop beat_times onset_times rms sc flux P ids ids2

/-- C4 counterexample: two runs on identical inputs whose id oracles draw
different UUID strings produce cue records that are not bit-identical —
they differ in the `id` field. -/
theorem determinism_counterexample :
    generate_cues 51200 512 [0] [0] exRms exSc exFlux balancedProfile exIdsA
      = [⟨"a", 0, "kick_boom", "onset_kick"⟩] ∧
    generate_cues 51200 512 [0] [0] exRms exSc exFlux balancedProfile exIdsB
      = [⟨"b", 0, "kick_boom", "onset_kick"⟩] ∧
    generate_cues 51200 512 [0] [0] exRms exSc exFlux balancedProfile exIdsA
      ≠ generate_cues 51200 512 [0] [0] exRms exSc exFlux balancedProfile exIdsB :=
  ⟨by decide, by decide, by decide⟩
